import Mathlib

/-!
Shallow embedding of a benchmark suite for shared-memory parallel numeric
kernels: an array-sum reduction and a dense matrix multiply, each with a
sequential reference and thread-parallel variants, plus the benchmark
harness logic of `test_openmp.py`.

The compiled Cython kernel modules (`parallel_sum.pyx`,
`parallel_matmul.pyx`) are not part of the repository snapshot — only
their build script (`setup.py`) and their caller (`test_openmp.py`) are —
so every kernel definition below is modelled from the specification, as
indicated by its doc comment.  The harness definitions are translated
directly from `test_openmp.py`.  Machine floating-point numbers are
modelled as exact rationals, under which reassociating a sum is exact;
the spec's 1e-10 tolerance is modelled as the rational 1/10^10.
-/

/-- Error taxonomy of the kernel interface (spec section 7): a requested
size that is not positive, a thread count below one, and incompatible
matrix shapes. -/
inductive KernelError where
  | invalidSize
  | invalidThreadCount
  | dimensionMismatch
deriving DecidableEq

/-- A work matrix is a row-major list of rows of rationals. -/
abbrev Mat : Type := List (List ℚ)

/-- Modelled from the spec: `sequential_sum` (missing kernel module
`parallel_sum.pyx`) is a single-pass left-to-right accumulation over the
array. -/
def sequential_sum (arr : List ℚ) : ℚ :=
  arr.foldl (· + ·) 0

/-- Modelled from the spec: helper of the missing `parallel_sum.pyx`
kernel — splits a list into `t` contiguous chunks of `q` elements each,
with the last chunk absorbing everything that remains. -/
def splitChunks (l : List ℚ) (q : ℕ) : ℕ → List (List ℚ)
  | 0 => []
  | 1 => [l]
  | n + 2 => l.take q :: splitChunks (l.drop q) q (n + 1)

/-- Modelled from the spec: the partition of `arr` into `t` contiguous,
near-equal-length chunks used by `parallel_sum`; every chunk has
`arr.length / t` elements and the last chunk absorbs the remainder. -/
def chunkList (arr : List ℚ) (t : ℕ) : List (List ℚ) :=
  splitChunks arr (arr.length / t) t

/-- Modelled from the spec: `parallel_sum` (missing kernel module
`parallel_sum.pyx`) validates the thread count, has each worker compute a
local left-to-right sum over its contiguous chunk, and combines the
per-thread partial sums in thread-index order. -/
def parallel_sum (arr : List ℚ) (t : ℤ) : Except KernelError ℚ :=
  if t < 1 then .error .invalidThreadCount
  else .ok (((chunkList arr t.toNat).map sequential_sum).foldl (· + ·) 0)

/-- Modelled from the spec: deterministic pseudo-random value stream of
the missing generator code (a linear congruential step mapped into
[0, 1)). -/
def pseudoRandomValue (seed i : ℕ) : ℚ :=
  ((((seed + i) * 1103515245 + 12345) % 2147483648 : ℕ) : ℚ) / 2147483648

/-- Modelled from the spec: `create_work_array` (missing kernel module
`parallel_sum.pyx`) generates `size` pseudo-random values and fails with
`InvalidSizeError` when the requested size is not positive. -/
def create_work_array (size : ℤ) : Except KernelError (List ℚ) :=
  if size ≤ 0 then .error .invalidSize
  else .ok ((List.range size.toNat).map (fun i => pseudoRandomValue 1 i))

/-- Modelled from the spec: `create_matrices` (missing kernel module
`parallel_matmul.pyx`) generates two independently filled `size × size`
matrices and fails with `InvalidSizeError` when the requested size is not
positive. -/
def create_matrices (size : ℤ) : Except KernelError (Mat × Mat) :=
  if size ≤ 0 then .error .invalidSize
  else .ok
    ((List.range size.toNat).map (fun i =>
        (List.range size.toNat).map (fun j => pseudoRandomValue 2 (i * size.toNat + j))),
     (List.range size.toNat).map (fun i =>
        (List.range size.toNat).map (fun j => pseudoRandomValue 3 (i * size.toNat + j))))

/-- Column count of a row-major matrix: the length of its first row. -/
def cols (M : Mat) : ℕ := (M.headD []).length

/-- Entry access with default 0, matching read-only indexed access into a
row-major matrix. -/
def getEntry (M : Mat) (i j : ℕ) : ℚ := (M.getD i []).getD j 0

/-- Modelled from the spec: one output entry of the matrix product — the
inner `k`-loop of the naive triple loop. -/
def mmEntry (A B : Mat) (i j : ℕ) : ℚ :=
  ((List.range (cols A)).map (fun k => getEntry A i k * getEntry B k j)).sum

/-- Modelled from the spec: one output row of the matrix product computed
with the naive i-j-k loop order (the `j`-loop over `mmEntry`). -/
def mmRow (A B : Mat) (i : ℕ) : List ℚ :=
  (List.range (cols B)).map (fun j => mmEntry A B i j)

/-- Modelled from the spec: one output row of the matrix product computed
with the locality-oriented i-k-j loop order — a running accumulator row is
updated once per `k`, adding `A[i][k] * B[k][j]` at every position `j`. -/
def mmRowOpt (A B : Mat) (i : ℕ) : List ℚ :=
  (List.range (cols A)).foldl
    (fun acc k =>
      (List.range (cols B)).map (fun j => acc.getD j 0 + getEntry A i k * getEntry B k j))
    (List.replicate (cols B) 0)

/-- Modelled from the spec: the full sequential product matrix, row by
row. -/
def seqProduct (A B : Mat) : Mat :=
  (List.range A.length).map (fun i => mmRow A B i)

/-- Modelled from the spec: `sequential_matmul` (missing kernel module
`parallel_matmul.pyx`) — the standard triple-nested-loop product, failing
with `DimensionMismatchError` when A's column count differs from B's row
count. -/
def sequential_matmul (A B : Mat) : Except KernelError Mat :=
  if cols A ≠ B.length then .error .dimensionMismatch
  else .ok (seqProduct A B)

/-- Modelled from the spec: row partition of the parallel matmul kernels —
thread `tid` owns exactly the output rows `i < m` with `i % t = tid`. -/
def threadRows (t m tid : ℕ) : List ℕ :=
  (List.range m).filter (fun i => i % t == tid)

/-- Modelled from the spec: one worker thread writing each of its assigned
output rows (computed by the row function `f`) into the shared output
matrix; disjointness of the row sets makes this race-free. -/
def writeRows (f : ℕ → List ℚ) (out : Mat) (rows : List ℕ) : Mat :=
  rows.foldl (fun M i => M.set i (f i)) out

/-- The all-zero `m × n` output matrix the threads write into. -/
def zeroMat (m n : ℕ) : Mat := List.replicate m (List.replicate n 0)

/-- Modelled from the spec: the joined effect of `t` worker threads, each
writing its own row set into the shared output. -/
def runThreads (f : ℕ → List ℚ) (t m : ℕ) (init : Mat) : Mat :=
  (List.range t).foldl (fun out tid => writeRows f out (threadRows t m tid)) init

/-- Modelled from the spec: `parallel_matmul_basic` (missing kernel module
`parallel_matmul.pyx`) — validates the thread count and the shapes, then
partitions output rows cyclically across threads, each thread computing
its rows with the naive triple loop. -/
def parallel_matmul_basic (A B : Mat) (t : ℤ) : Except KernelError Mat :=
  if t < 1 then .error .invalidThreadCount
  else if cols A ≠ B.length then .error .dimensionMismatch
  else .ok (runThreads (mmRow A B) t.toNat A.length (zeroMat A.length (cols B)))

/-- Modelled from the spec: `parallel_matmul_optimized` (missing kernel
module `parallel_matmul.pyx`) — same validation and row partition as the
basic variant, but each thread computes its rows with the cache-friendlier
i-k-j loop order. -/
def parallel_matmul_optimized (A B : Mat) (t : ℤ) : Except KernelError Mat :=
  if t < 1 then .error .invalidThreadCount
  else if cols A ≠ B.length then .error .dimensionMismatch
  else .ok (runThreads (mmRowOpt A B) t.toNat A.length (zeroMat A.length (cols B)))

/-- Harness speedup ratio (`test_openmp.py` lines 40, 72, 73): the ratio
of serial to parallel time when the parallel time is positive, and 0
otherwise. -/
def speedup (st pt : ℚ) : ℚ :=
  if 0 < pt then st / pt else 0

/-- Harness accuracy check of the sum benchmark (`test_openmp.py` line
47): a divergence warning is printed exactly when the absolute difference
between the serial and the parallel sum exceeds 1e-10. -/
def sumTrialWarns (ss psr : ℚ) : Bool :=
  decide (|ss - psr| > 1 / 10 ^ 10)

/-- Matmul-trial report of the harness (`test_openmp.py` lines 72-73):
the two speedup ratios computed from the three timings. -/
def matmulSpeedups (st pt ot : ℚ) : ℚ × ℚ :=
  (speedup st pt, speedup st ot)

/-- Matmul-trial warning condition (`test_openmp.py` lines 68-78): the
matrix-multiplication trial body compares no results at all — it only
receives the three timings — so no input makes it print a divergence
warning. -/
def matmulTrialWarns (st pt ot : ℚ) : Bool :=
  false

/-- Modelled from the spec: `benchmark_matmul` (missing kernel module
`parallel_matmul.pyx`) times the sequential, basic-parallel and
optimized-parallel multiplies on the given operands and returns only the
three wall-clock timings — no kernel output is returned to the caller.
The timings themselves are external measurements, supplied here as
parameters of the model. -/
def benchmark_matmul (A B : Mat) (t : ℤ) (st pt ot : ℚ) : ℚ × ℚ × ℚ :=
  (st, pt, ot)

/-- Observable outcome of the start-up phase of `test_openmp.py`. -/
structure StartupOutcome where
  exitCode : Option ℕ
  printedImportError : Bool
  printedRebuildHint : Bool
  ranBenchmarks : Bool
deriving DecidableEq

/-- Import guard of `test_openmp.py` (lines 12-18): if either compiled
module fails to import, the script prints the import error and the
rebuild instruction and exits with status 1 before any benchmark runs;
only when both modules import does it proceed to the benchmarks. -/
def moduleImportGuard (psOk pmOk : Bool) : StartupOutcome :=
  if psOk && pmOk then ⟨none, false, false, true⟩
  else ⟨some 1, true, true, false⟩

/-! ## Helper lemmas: sums and chunking -/

theorem foldl_add_eq_add_sum (l : List ℚ) : ∀ a : ℚ, l.foldl (· + ·) a = a + l.sum := by
  induction l with
  | nil => intro a; simp
  | cons x xs ih => intro a; simp only [List.foldl_cons, ih, List.sum_cons]; ring

theorem sequential_sum_eq_sum (arr : List ℚ) : sequential_sum arr = arr.sum := by
  rw [sequential_sum, foldl_add_eq_add_sum, zero_add]

theorem splitChunks_flatten (q : ℕ) :
    ∀ (n : ℕ) (l : List ℚ), (splitChunks l q (n + 1)).flatten = l := by
  intro n
  induction n with
  | zero => intro l; simp [splitChunks]
  | succ k ih => intro l; simp [splitChunks, ih]

theorem splitChunks_count (q : ℕ) :
    ∀ (n : ℕ) (l : List ℚ), (splitChunks l q (n + 1)).length = n + 1 := by
  intro n
  induction n with
  | zero => intro l; simp [splitChunks]
  | succ k ih => intro l; simp [splitChunks, ih]

theorem splitChunks_lengths (q : ℕ) :
    ∀ (n : ℕ) (l : List ℚ), q * n ≤ l.length →
      (splitChunks l q (n + 1)).map List.length =
        List.replicate n q ++ [l.length - q * n] := by
  intro n
  induction n with
  | zero => intro l h; simp [splitChunks]
  | succ k ih =>
      intro l h
      have hmul : q * k + q ≤ l.length := by
        have h2 := h
        rw [Nat.mul_succ] at h2
        exact h2
      have hq : q ≤ l.length := le_trans (Nat.le_add_left q (q * k)) hmul
      have hdrop : q * k ≤ (l.drop q).length := by
        rw [List.length_drop]
        exact Nat.le_sub_of_add_le hmul
      have hlen : (l.take q).length = q := by
        rw [List.length_take, min_eq_left hq]
      have heq : (l.drop q).length - q * k = l.length - q * (k + 1) := by
        rw [List.length_drop, Nat.mul_succ, Nat.sub_sub, Nat.add_comm q (q * k)]
      rw [show splitChunks l q (k + 1 + 1) = l.take q :: splitChunks (l.drop q) q (k + 1)
            from rfl,
          List.map_cons, ih (l.drop q) hdrop, hlen, heq, List.replicate_succ,
          List.cons_append]

theorem chunkList_flatten (arr : List ℚ) (t : ℕ) (ht : 1 ≤ t) :
    (chunkList arr t).flatten = arr := by
  obtain ⟨n, rfl⟩ : ∃ n, t = n + 1 := ⟨t - 1, by omega⟩
  exact splitChunks_flatten _ n arr

theorem parallel_sum_ok (arr : List ℚ) (t : ℤ) (ht : 1 ≤ t) :
    parallel_sum arr t = .ok (sequential_sum arr) := by
  have hnt : ¬ t < 1 := by omega
  rw [parallel_sum, if_neg hnt]
  congr 1
  have h1 : 1 ≤ t.toNat := by omega
  calc ((chunkList arr t.toNat).map sequential_sum).foldl (· + ·) 0
      = ((chunkList arr t.toNat).map sequential_sum).sum := by
        rw [foldl_add_eq_add_sum, zero_add]
    _ = ((chunkList arr t.toNat).map List.sum).sum := by
        exact congrArg List.sum (List.map_congr_left (fun c _ => sequential_sum_eq_sum c))
    _ = (chunkList arr t.toNat).flatten.sum := List.sum_flatten.symm
    _ = arr.sum := by rw [chunkList_flatten arr t.toNat h1]
    _ = sequential_sum arr := (sequential_sum_eq_sum arr).symm

/-! ## Helper lemmas: matrix kernels -/

theorem getD_set (l : List (List ℚ)) (i j : ℕ) (a : List ℚ) :
    (l.set i a).getD j [] = if i = j ∧ j < l.length then a else l.getD j [] := by
  rw [List.getD_eq_getElem?_getD, List.getD_eq_getElem?_getD, List.getElem?_set]
  by_cases hij : i = j
  · subst hij
    by_cases hi : i < l.length
    · simp [hi]
    · have hnone : l[i]? = none := List.getElem?_eq_none (by omega)
      simp [hi, hnone]
  · simp [hij]

theorem writeRows_length (f : ℕ → List ℚ) (rows : List ℕ) :
    ∀ out : Mat, (writeRows f out rows).length = out.length := by
  induction rows with
  | nil => intro out; rfl
  | cons r rs ih =>
      intro out
      have hstep : writeRows f out (r :: rs) = writeRows f (out.set r (f r)) rs := rfl
      rw [hstep, ih, List.length_set]

theorem writeRows_getD (f : ℕ → List ℚ) (rows : List ℕ) :
    ∀ (out : Mat) (i : ℕ),
      (writeRows f out rows).getD i [] =
        if i ∈ rows ∧ i < out.length then f i else out.getD i [] := by
  induction rows with
  | nil => intro out i; simp [writeRows]
  | cons r rs ih =>
      intro out i
      have hstep : writeRows f out (r :: rs) = writeRows f (out.set r (f r)) rs := rfl
      rw [hstep, ih, List.length_set, getD_set]
      by_cases h2 : i < out.length
      · by_cases h1 : i ∈ rs
        · simp [h1, h2, List.mem_cons]
        · by_cases h3 : i = r
          · subst h3
            simp [h1, h2, List.mem_cons]
          · simp [List.mem_cons, h1, h2, h3, Ne.symm h3]
      · simp [h2]

theorem writeRows_append (f : ℕ → List ℚ) (out : Mat) (rs1 rs2 : List ℕ) :
    writeRows f out (rs1 ++ rs2) = writeRows f (writeRows f out rs1) rs2 :=
  List.foldl_append _ _ _ _

theorem foldl_writeRows (f : ℕ → List ℚ) (g : ℕ → List ℕ) :
    ∀ (tids : List ℕ) (out : Mat),
      tids.foldl (fun o tid => writeRows f o (g tid)) out =
        writeRows f out ((tids.map g).flatten) := by
  intro tids
  induction tids with
  | nil => intro out; rfl
  | cons a as ih =>
      intro out
      have h1 : (a :: as).foldl (fun o tid => writeRows f o (g tid)) out
          = as.foldl (fun o tid => writeRows f o (g tid)) (writeRows f out (g a)) := rfl
      rw [h1, ih, List.map_cons, List.flatten_cons, writeRows_append]

theorem mem_threadRows (t m tid i : ℕ) :
    i ∈ threadRows t m tid ↔ i < m ∧ i % t = tid := by
  rw [threadRows, List.mem_filter, List.mem_range]
  simp

theorem mem_allRows (t m i : ℕ) (ht : 1 ≤ t) :
    i ∈ ((List.range t).map (fun tid => threadRows t m tid)).flatten ↔ i < m := by
  rw [List.mem_flatten]
  constructor
  · rintro ⟨l, hl, hil⟩
    rw [List.mem_map] at hl
    obtain ⟨tid, _, rfl⟩ := hl
    exact ((mem_threadRows t m tid i).1 hil).1
  · intro him
    refine ⟨threadRows t m (i % t), ?_, ?_⟩
    · rw [List.mem_map]
      exact ⟨i % t, List.mem_range.2 (Nat.mod_lt i (by omega)), rfl⟩
    · exact (mem_threadRows t m (i % t) i).2 ⟨him, rfl⟩

theorem runThreads_length (f : ℕ → List ℚ) (t m : ℕ) (init : Mat) :
    (runThreads f t m init).length = init.length := by
  rw [runThreads, foldl_writeRows, writeRows_length]

theorem runThreads_getD (f : ℕ → List ℚ) (t m : ℕ) (init : Mat) (i : ℕ) (ht : 1 ≤ t) :
    (runThreads f t m init).getD i [] =
      if i < m ∧ i < init.length then f i else init.getD i [] := by
  rw [runThreads, foldl_writeRows, writeRows_getD]
  simp only [mem_allRows t m i ht]

theorem runThreads_zeroMat (f : ℕ → List ℚ) (t m n : ℕ) (ht : 1 ≤ t) :
    runThreads f t m (zeroMat m n) = (List.range m).map f := by
  apply List.ext_getElem
  · rw [runThreads_length]
    simp [zeroMat]
  · intro i h1 h2
    have hm : i < m := by
      rw [runThreads_length] at h1
      simpa [zeroMat] using h1
    have hz : i < (zeroMat m n).length := by simpa [zeroMat] using hm
    rw [List.getElem_map, List.getElem_range,
        ← List.getD_eq_getElem (runThreads f t m (zeroMat m n)) [] h1,
        runThreads_getD f t m _ i ht, if_pos ⟨hm, hz⟩]

theorem parallel_matmul_basic_ok (A B : Mat) (t : ℤ) (ht : 1 ≤ t) (hd : cols A = B.length) :
    parallel_matmul_basic A B t = .ok (seqProduct A B) := by
  have hnt : ¬ t < 1 := by omega
  have h1 : 1 ≤ t.toNat := by omega
  rw [parallel_matmul_basic, if_neg hnt, if_neg (fun h => h hd),
      runThreads_zeroMat _ _ _ _ h1, seqProduct]

theorem foldl_rowStep (A B : Mat) (i n : ℕ) :
    ∀ ks : List ℕ,
      ks.foldl
        (fun acc k =>
          (List.range n).map (fun j => acc.getD j 0 + getEntry A i k * getEntry B k j))
        (List.replicate n 0) =
      (List.range n).map (fun j => (ks.map (fun k => getEntry A i k * getEntry B k j)).sum) := by
  intro ks
  induction ks using List.reverseRecOn with
  | nil =>
      simp only [List.map_nil, List.sum_nil, List.foldl_nil]
      rw [List.map_const', List.length_range]
  | append_singleton ks k ih =>
      rw [List.foldl_append, List.foldl_cons, List.foldl_nil, ih]
      apply List.map_congr_left
      intro j hj
      rw [List.mem_range] at hj
      have hget : ((List.range n).map
          (fun j => (ks.map (fun k => getEntry A i k * getEntry B k j)).sum)).getD j 0
          = (ks.map (fun k => getEntry A i k * getEntry B k j)).sum := by
        rw [List.getD_eq_getElem _ 0 (by simpa using hj), List.getElem_map, List.getElem_range]
      rw [hget, List.map_append, List.sum_append]
      simp

theorem mmRowOpt_eq_mmRow (A B : Mat) (i : ℕ) : mmRowOpt A B i = mmRow A B i := by
  rw [mmRowOpt, foldl_rowStep A B i (cols B) (List.range (cols A)), mmRow]
  rfl

theorem parallel_matmul_optimized_ok (A B : Mat) (t : ℤ) (ht : 1 ≤ t)
    (hd : cols A = B.length) :
    parallel_matmul_optimized A B t = .ok (seqProduct A B) := by
  have hnt : ¬ t < 1 := by omega
  have h1 : 1 ≤ t.toNat := by omega
  have hfun : mmRowOpt A B = mmRow A B := funext (mmRowOpt_eq_mmRow A B)
  rw [parallel_matmul_optimized, if_neg hnt, if_neg (fun h => h hd), hfun,
      runThreads_zeroMat _ _ _ _ h1, seqProduct]

theorem sequential_matmul_ok (A B : Mat) (hd : cols A = B.length) :
    sequential_matmul A B = .ok (seqProduct A B) := by
  rw [sequential_matmul, if_neg (fun h => h hd)]

theorem last_chunk_size (L q r n : ℕ) (hdm : (n + 1) * q + r = L) :
    L - q * n = q + r := by
  have hL : L = q * n + (q + r) := by rw [← hdm]; ring
  rw [hL, Nat.add_sub_cancel_left]

theorem chunkList_count (arr : List ℚ) (tt : ℕ) (htt : 1 ≤ tt) :
    (chunkList arr tt).length = tt := by
  obtain ⟨n, rfl⟩ : ∃ n, tt = n + 1 := ⟨tt - 1, by omega⟩
  exact splitChunks_count _ n arr

theorem chunkList_lengths (arr : List ℚ) (tt : ℕ) (htt : 1 ≤ tt) :
    (chunkList arr tt).map List.length =
      List.replicate (tt - 1) (arr.length / tt) ++
        [arr.length / tt + arr.length % tt] := by
  obtain ⟨n, rfl⟩ : ∃ n, tt = n + 1 := ⟨tt - 1, by omega⟩
  have hbound : (arr.length / (n + 1)) * n ≤ arr.length := by
    have hstep : (arr.length / (n + 1)) * n ≤ (arr.length / (n + 1)) * (n + 1) :=
      Nat.mul_le_mul_left _ (by omega)
    exact le_trans hstep (Nat.div_mul_le_self _ _)
  have hlast : arr.length - (arr.length / (n + 1)) * n
      = arr.length / (n + 1) + arr.length % (n + 1) :=
    last_chunk_size arr.length (arr.length / (n + 1)) (arr.length % (n + 1)) n
      (Nat.div_add_mod _ _)
  have hmap := splitChunks_lengths (arr.length / (n + 1)) n arr hbound
  rw [chunkList, hmap, hlast]
  simp

/-! ## Claim theorems -/

/-- Claim C1: for every array and every valid thread count (at least 1),
`parallel_sum` agrees with `sequential_sum` within 1e-10 absolute — in
the exact-rational model the chunked reassociated sum equals the
sequential sum, so the difference is 0 — and the harness check of
`test_openmp.py` line 47 warns about, rather than silently accepting, any
measured difference above that tolerance. -/
theorem C1_parallel_sum_matches_sequential (arr : List ℚ) (t : ℤ) (ht : 1 ≤ t)
    (ss psr : ℚ) (hdiv : |ss - psr| > 1 / 10 ^ 10) :
    (∃ s, parallel_sum arr t = .ok s ∧ |s - sequential_sum arr| ≤ 1 / 10 ^ 10) ∧
      sumTrialWarns ss psr = true := by
  refine ⟨⟨sequential_sum arr, parallel_sum_ok arr t ht, ?_⟩, ?_⟩
  · rw [sub_self, abs_zero]
    positivity
  · simp only [sumTrialWarns, decide_eq_true_eq]
    exact hdiv

/-- Witness for C1: a concrete three-element array with thread count 2,
and a concrete diverging measurement (difference 1) that the harness
flags. -/
theorem C1_parallel_sum_matches_sequential_witness :
    (∃ s, parallel_sum [1, 2, 3] 2 = .ok s ∧
        |s - sequential_sum [1, 2, 3]| ≤ 1 / 10 ^ 10) ∧
      sumTrialWarns 0 1 = true :=
  C1_parallel_sum_matches_sequential [1, 2, 3] 2 (by norm_num) 0 1 (by norm_num)

/-- Claim C2: for every pair of matrices with compatible shapes and every
valid thread count, both parallel matmul variants return exactly the
sequential product, hence agree with it (and with each other) element-wise
within the 1e-10 tolerance. -/
theorem C2_parallel_matmul_refines_sequential (A B : Mat) (t : ℤ) (ht : 1 ≤ t)
    (hd : cols A = B.length) :
    sequential_matmul A B = .ok (seqProduct A B) ∧
      parallel_matmul_basic A B t = .ok (seqProduct A B) ∧
      parallel_matmul_optimized A B t = .ok (seqProduct A B) ∧
      parallel_matmul_optimized A B t = parallel_matmul_basic A B t ∧
      ∀ P S : Mat, parallel_matmul_basic A B t = .ok P →
        sequential_matmul A B = .ok S →
        ∀ i j : ℕ, |getEntry P i j - getEntry S i j| ≤ 1 / 10 ^ 10 := by
  refine ⟨sequential_matmul_ok A B hd, parallel_matmul_basic_ok A B t ht hd,
    parallel_matmul_optimized_ok A B t ht hd, ?_, ?_⟩
  · rw [parallel_matmul_basic_ok A B t ht hd, parallel_matmul_optimized_ok A B t ht hd]
  · intro P S hP hS i j
    rw [parallel_matmul_basic_ok A B t ht hd] at hP
    rw [sequential_matmul_ok A B hd] at hS
    injection hP with hP1
    injection hS with hS1
    rw [← hP1, ← hS1, sub_self, abs_zero]
    positivity

/-- Witness for C2 at concrete 2 by 2 matrices and thread count 2. -/
theorem C2_parallel_matmul_refines_sequential_witness :
    sequential_matmul [[1, 2], [3, 4]] [[5, 6], [7, 8]] =
        .ok (seqProduct [[1, 2], [3, 4]] [[5, 6], [7, 8]]) ∧
      parallel_matmul_basic [[1, 2], [3, 4]] [[5, 6], [7, 8]] 2 =
        .ok (seqProduct [[1, 2], [3, 4]] [[5, 6], [7, 8]]) ∧
      parallel_matmul_optimized [[1, 2], [3, 4]] [[5, 6], [7, 8]] 2 =
        .ok (seqProduct [[1, 2], [3, 4]] [[5, 6], [7, 8]]) ∧
      parallel_matmul_optimized [[1, 2], [3, 4]] [[5, 6], [7, 8]] 2 =
        parallel_matmul_basic [[1, 2], [3, 4]] [[5, 6], [7, 8]] 2 ∧
      ∀ P S : Mat,
        parallel_matmul_basic [[1, 2], [3, 4]] [[5, 6], [7, 8]] 2 = .ok P →
        sequential_matmul [[1, 2], [3, 4]] [[5, 6], [7, 8]] = .ok S →
        ∀ i j : ℕ, |getEntry P i j - getEntry S i j| ≤ 1 / 10 ^ 10 :=
  C2_parallel_matmul_refines_sequential [[1, 2], [3, 4]] [[5, 6], [7, 8]] 2
    (by norm_num) rfl

/-- Claim C3: the row partition used by both parallel matmul variants
assigns every output row `i < m` to exactly one thread (namely thread
`i % ThreadCount`), so all rows are covered with no omissions and no two
threads own the same row; since a thread writes only whole rows it owns,
no output cell is assigned to two different threads. -/
theorem C3_row_partition_exactly_once (t : ℤ) (m i : ℕ) (ht : 1 ≤ t) (hi : i < m) :
    ∃! tid : ℕ, tid < t.toNat ∧ i ∈ threadRows t.toNat m tid := by
  refine ⟨i % t.toNat,
    ⟨Nat.mod_lt i (by omega), (mem_threadRows _ _ _ _).2 ⟨hi, rfl⟩⟩, ?_⟩
  rintro tid ⟨htid, hmem⟩
  exact (((mem_threadRows _ _ _ _).1 hmem).2).symm

/-- Witness for C3: with 2 threads and 3 output rows, row 1 is owned by
exactly one thread. -/
theorem C3_row_partition_exactly_once_witness :
    ∃! tid : ℕ, tid < (2 : ℤ).toNat ∧ 1 ∈ threadRows (2 : ℤ).toNat 3 tid :=
  C3_row_partition_exactly_once 2 3 1 (by norm_num) (by norm_num)

/-- Counterexample for claim C4 as stated: with thread count 0 and
incompatible shapes, the parallel matmul kernel reports the invalid
thread count, not the dimension mismatch — so it does not fail with
`DimensionMismatchError` exactly when A's column count differs from B's
row count. -/
theorem C4_error_exactness_counterexample :
    cols [[1]] ≠ ([] : Mat).length ∧
      parallel_matmul_basic [[1]] [] 0 = .error .invalidThreadCount ∧
      parallel_matmul_basic [[1]] [] 0 ≠ .error .dimensionMismatch := by
  refine ⟨by decide, rfl, fun h => ?_⟩
  rw [show parallel_matmul_basic [[1]] [] 0 = Except.error KernelError.invalidThreadCount
        from rfl] at h
  exact absurd (Except.error.inj h) (by decide)

/-- Claim C4 (amended): the generators fail with `InvalidSizeError`
exactly when the requested size is at most 0; `parallel_sum` and both
parallel matmul variants fail with `InvalidThreadCountError` exactly when
the thread count is below 1; `sequential_matmul` fails with
`DimensionMismatchError` exactly when A's column count differs from B's
row count, and the parallel matmul variants do so exactly when the shapes
are incompatible and the thread count is valid — the thread-count check
takes precedence when both preconditions are violated. -/
theorem C4_error_conditions (size : ℤ) (arr : List ℚ) (t : ℤ) (A B : Mat) :
    (create_work_array size = .error .invalidSize ↔ size ≤ 0) ∧
      (create_matrices size = .error .invalidSize ↔ size ≤ 0) ∧
      (parallel_sum arr t = .error .invalidThreadCount ↔ t < 1) ∧
      (parallel_matmul_basic A B t = .error .invalidThreadCount ↔ t < 1) ∧
      (parallel_matmul_optimized A B t = .error .invalidThreadCount ↔ t < 1) ∧
      (sequential_matmul A B = .error .dimensionMismatch ↔ cols A ≠ B.length) ∧
      (parallel_matmul_basic A B t = .error .dimensionMismatch ↔
        1 ≤ t ∧ cols A ≠ B.length) ∧
      (parallel_matmul_optimized A B t = .error .dimensionMismatch ↔
        1 ≤ t ∧ cols A ≠ B.length) := by
  refine ⟨?_, ?_, ?_, ?_, ?_, ?_, ?_, ?_⟩
  · rw [create_work_array]; split_ifs with h <;> simp [h]
  · rw [create_matrices]; split_ifs with h <;> simp [h]
  · rw [parallel_sum]; split_ifs with h <;> simp [h]
  · rw [parallel_matmul_basic]; split_ifs with h1 h2 <;> simp [h1]
  · rw [parallel_matmul_optimized]; split_ifs with h1 h2 <;> simp [h1]
  · rw [sequential_matmul]; split_ifs with h <;> simp [h]
  · rw [parallel_matmul_basic]; split_ifs with h1 h2
    · have hnot : ¬ (1 : ℤ) ≤ t := by omega
      simp [hnot]
    · have hyes : (1 : ℤ) ≤ t := by omega
      simp [hyes, h2]
    · simp [h2]
  · rw [parallel_matmul_optimized]; split_ifs with h1 h2
    · have hnot : ¬ (1 : ℤ) ≤ t := by omega
      simp [hnot]
    · have hyes : (1 : ℤ) ≤ t := by omega
      simp [hyes, h2]
    · simp [h2]

/-- Witness for C4 (amended) at concrete invalid inputs: size 0, thread
count 0, and a concrete shape mismatch with a valid thread count. -/
theorem C4_error_conditions_witness :
    create_work_array 0 = .error .invalidSize ∧
      parallel_sum [1] 0 = .error .invalidThreadCount ∧
      parallel_matmul_basic [[1]] [] 1 = .error .dimensionMismatch :=
  ⟨(C4_error_conditions 0 [1] 0 [[1]] []).1.mpr (by norm_num),
   (C4_error_conditions 0 [1] 0 [[1]] []).2.2.1.mpr (by norm_num),
   (C4_error_conditions 0 [1] 1 [[1]] []).2.2.2.2.2.2.1.mpr ⟨by norm_num, by decide⟩⟩

/-- Claim C5: on invalid input every generator and kernel fails with an
error and produces no result at all — in this pure model a call either
returns `.ok` with a complete result or `.error` with no partial output,
and inputs are immutable by construction, so observable state is
unchanged on error. -/
theorem C5_no_partial_work_on_error (size : ℤ) (arr : List ℚ) (t : ℤ) (A B : Mat) :
    (size ≤ 0 → create_work_array size = .error .invalidSize ∧
      ∀ v, create_work_array size ≠ .ok v) ∧
    (size ≤ 0 → create_matrices size = .error .invalidSize ∧
      ∀ v, create_matrices size ≠ .ok v) ∧
    (t < 1 → parallel_sum arr t = .error .invalidThreadCount ∧
      ∀ v, parallel_sum arr t ≠ .ok v) ∧
    (t < 1 ∨ cols A ≠ B.length →
      (∃ e, parallel_matmul_basic A B t = .error e) ∧
      ∀ v, parallel_matmul_basic A B t ≠ .ok v) ∧
    (t < 1 ∨ cols A ≠ B.length →
      (∃ e, parallel_matmul_optimized A B t = .error e) ∧
      ∀ v, parallel_matmul_optimized A B t ≠ .ok v) ∧
    (cols A ≠ B.length → sequential_matmul A B = .error .dimensionMismatch ∧
      ∀ v, sequential_matmul A B ≠ .ok v) := by
  refine ⟨?_, ?_, ?_, ?_, ?_, ?_⟩
  · intro h
    rw [create_work_array, if_pos h]
    exact ⟨rfl, fun v hv => Except.noConfusion hv⟩
  · intro h
    rw [create_matrices, if_pos h]
    exact ⟨rfl, fun v hv => Except.noConfusion hv⟩
  · intro h
    rw [parallel_sum, if_pos h]
    exact ⟨rfl, fun v hv => Except.noConfusion hv⟩
  · intro h
    rw [parallel_matmul_basic]
    split_ifs with h1 h2
    · exact ⟨⟨_, rfl⟩, fun v hv => Except.noConfusion hv⟩
    · exact ⟨⟨_, rfl⟩, fun v hv => Except.noConfusion hv⟩
    · rcases h with h | h
      · exact absurd h h1
      · exact absurd h h2
  · intro h
    rw [parallel_matmul_optimized]
    split_ifs with h1 h2
    · exact ⟨⟨_, rfl⟩, fun v hv => Except.noConfusion hv⟩
    · exact ⟨⟨_, rfl⟩, fun v hv => Except.noConfusion hv⟩
    · rcases h with h | h
      · exact absurd h h1
      · exact absurd h h2
  · intro h
    rw [sequential_matmul, if_pos h]
    exact ⟨rfl, fun v hv => Except.noConfusion hv⟩

/-- Witness for C5 at concrete invalid inputs: size 0 and thread count
0, the cases the spec names explicitly. -/
theorem C5_no_partial_work_on_error_witness :
    create_work_array 0 = .error .invalidSize ∧
      parallel_sum [1] 0 = .error .invalidThreadCount :=
  ⟨((C5_no_partial_work_on_error 0 [1] 0 [[1]] [[1]]).1 (by norm_num)).1,
   ((C5_no_partial_work_on_error 0 [1] 0 [[1]] [[1]]).2.2.1 (by norm_num)).1⟩

/-- Counterexample for claim C6: the sum trial of the harness flags a
divergence of 1 (far beyond the 1e-10 tolerance), but the
matrix-multiplication trial of `test_openmp.py` (lines 68-78) performs no
result comparison at all — `benchmark_matmul` hands it only the three
timings, as its return value shows — so its warning condition is false on
every input and a diverging matmul run is never flagged. -/
theorem C6_matmul_unflagged_counterexample :
    sumTrialWarns 0 1 = true ∧
      matmulTrialWarns 1 2 3 = false ∧
      benchmark_matmul [[1]] [[1]] 4 1 2 3 = (1, 2, 3) :=
  ⟨by simp only [sumTrialWarns, decide_eq_true_eq]; norm_num, rfl, rfl⟩

/-- Claim C6 (amended): for each trial the harness computes speedup
ratios for both benchmarks; it flags divergence beyond the 1e-10
tolerance for the sum benchmark exactly when the measured difference
exceeds the tolerance, while the matrix-multiplication trial reports only
timings and speedup ratios and never flags a result divergence, since
`benchmark_matmul` returns no results to compare. -/
theorem C6_harness_reporting (ss psr st pt ot : ℚ) :
    (sumTrialWarns ss psr = true ↔ |ss - psr| > 1 / 10 ^ 10) ∧
      matmulSpeedups st pt ot = (speedup st pt, speedup st ot) ∧
      matmulTrialWarns st pt ot = false := by
  refine ⟨?_, rfl, rfl⟩
  simp only [sumTrialWarns, decide_eq_true_eq]

/-- Counterexample for claim C7: with a 2-element array and 3 threads
(thread count exceeding the array length), the last-absorbs partition
produces chunk lengths [0, 0, 2] — the last chunk has length 2, so the
chunks do not all degenerate to size 0 or 1. -/
theorem C7_chunk_degeneracy_counterexample :
    ([1, 2] : List ℚ).length < 3 ∧
      (chunkList [1, 2] 3).map List.length = [0, 0, 2] ∧
      ¬ ∀ k ∈ (chunkList [1, 2] 3).map List.length, k ≤ 1 := by
  have hml : (chunkList [1, 2] 3).map List.length = [0, 0, 2] := rfl
  refine ⟨by norm_num, hml, fun hall => ?_⟩
  have hmem : (2 : ℕ) ∈ (chunkList [1, 2] 3).map List.length := by
    rw [hml]
    simp
  exact absurd (hall 2 hmem) (by omega)

/-- Claim C7 (amended): `parallel_sum` splits its input into exactly
ThreadCount contiguous chunks that concatenate back to the whole array
(hence pairwise disjoint with full coverage); every chunk except the last
has length `n / ThreadCount` and the last absorbs the remainder, so any
two chunk lengths differ by at most the remainder `n % ThreadCount`, and
no length is ever negative; when ThreadCount exceeds the array length the
non-last chunks are empty and the last chunk holds the whole array. -/
theorem C7_chunk_partition (arr : List ℚ) (t : ℤ) (ht : 1 ≤ t) :
    (chunkList arr t.toNat).length = t.toNat ∧
      (chunkList arr t.toNat).flatten = arr ∧
      (chunkList arr t.toNat).map List.length =
        List.replicate (t.toNat - 1) (arr.length / t.toNat) ++
          [arr.length / t.toNat + arr.length % t.toNat] ∧
      ∀ a ∈ (chunkList arr t.toNat).map List.length,
        ∀ b ∈ (chunkList arr t.toNat).map List.length,
          a ≤ b + arr.length % t.toNat := by
  have h1 : 1 ≤ t.toNat := by omega
  refine ⟨chunkList_count arr t.toNat h1, chunkList_flatten arr t.toNat h1,
    chunkList_lengths arr t.toNat h1, ?_⟩
  intro a ha b hb
  rw [chunkList_lengths arr t.toNat h1] at ha hb
  generalize harr : arr.length / t.toNat = q at ha hb ⊢
  generalize hrem : arr.length % t.toNat = r at ha hb ⊢
  have hval : ∀ c, c ∈ List.replicate (t.toNat - 1) q ++ [q + r] →
      c = q ∨ c = q + r := by
    intro c hc
    rcases List.mem_append.1 hc with hc1 | hc2
    · exact Or.inl (List.eq_of_mem_replicate hc1)
    · simp at hc2
      exact Or.inr hc2
  rcases hval a ha with rfl | rfl <;> rcases hval b hb with rfl | rfl <;> omega

/-- Witness for C7 (amended) at a concrete 5-element array with 2
threads: two chunks, lengths [2, 3]. -/
theorem C7_chunk_partition_witness :
    (chunkList [1, 2, 3, 4, 5] (2 : ℤ).toNat).length = (2 : ℤ).toNat ∧
      (chunkList [1, 2, 3, 4, 5] (2 : ℤ).toNat).flatten = [1, 2, 3, 4, 5] ∧
      (chunkList [1, 2, 3, 4, 5] (2 : ℤ).toNat).map List.length =
        List.replicate ((2 : ℤ).toNat - 1)
            (([1, 2, 3, 4, 5] : List ℚ).length / (2 : ℤ).toNat) ++
          [([1, 2, 3, 4, 5] : List ℚ).length / (2 : ℤ).toNat +
            ([1, 2, 3, 4, 5] : List ℚ).length % (2 : ℤ).toNat] ∧
      ∀ a ∈ (chunkList [1, 2, 3, 4, 5] (2 : ℤ).toNat).map List.length,
        ∀ b ∈ (chunkList [1, 2, 3, 4, 5] (2 : ℤ).toNat).map List.length,
          a ≤ b + ([1, 2, 3, 4, 5] : List ℚ).length % (2 : ℤ).toNat :=
  C7_chunk_partition [1, 2, 3, 4, 5] 2 (by norm_num)

/-- Claim C8: with ThreadCount = 1 each parallel kernel matches its
sequential reference within the 1e-10 tolerance — in this exact model the
single-thread sum equals the sequential sum and the single-thread matmul
outputs coincide with the sequential product. -/
theorem C8_single_thread_refinement (arr : List ℚ) (A B : Mat)
    (hd : cols A = B.length) :
    (∃ s, parallel_sum arr 1 = .ok s ∧ |s - sequential_sum arr| ≤ 1 / 10 ^ 10) ∧
      parallel_matmul_basic A B 1 = sequential_matmul A B ∧
      parallel_matmul_optimized A B 1 = sequential_matmul A B := by
  refine ⟨⟨sequential_sum arr, parallel_sum_ok arr 1 (by norm_num), ?_⟩, ?_, ?_⟩
  · rw [sub_self, abs_zero]
    positivity
  · rw [parallel_matmul_basic_ok A B 1 (by norm_num) hd, sequential_matmul_ok A B hd]
  · rw [parallel_matmul_optimized_ok A B 1 (by norm_num) hd, sequential_matmul_ok A B hd]

/-- Witness for C8 at a concrete array and concrete compatible 1 by 1
matrices. -/
theorem C8_single_thread_refinement_witness :
    (∃ s, parallel_sum [1, 2] 1 = .ok s ∧
        |s - sequential_sum [1, 2]| ≤ 1 / 10 ^ 10) ∧
      parallel_matmul_basic [[2]] [[3]] 1 = sequential_matmul [[2]] [[3]] ∧
      parallel_matmul_optimized [[2]] [[3]] 1 = sequential_matmul [[2]] [[3]] :=
  C8_single_thread_refinement [1, 2] [[2]] [[3]] rfl

/-- Claim C9: the harness speedup computation (`test_openmp.py` lines 40,
72, 73) is total — when the reported parallel time is 0 it returns 0
instead of dividing, and for a positive parallel time it returns the
ratio of serial to parallel time. -/
theorem C9_speedup_total (st pt : ℚ) (hpt : 0 < pt) :
    speedup st 0 = 0 ∧ speedup st pt = st / pt := by
  constructor
  · rw [speedup, if_neg (lt_irrefl 0)]
  · rw [speedup, if_pos hpt]

/-- Witness for C9 at concrete timings. -/
theorem C9_speedup_total_witness : speedup 3 0 = 0 ∧ speedup 3 2 = 3 / 2 :=
  C9_speedup_total 3 2 (by norm_num)

/-- Claim C10: if either compiled kernel module fails to import, the
script prints the import error and the rebuild instruction and exits with
status 1 without running any benchmark — it never partially runs with
only one module available; only with both modules present does it run the
benchmarks. -/
theorem C10_import_guard (psOk pmOk : Bool) (hfail : psOk = false ∨ pmOk = false) :
    moduleImportGuard psOk pmOk = ⟨some 1, true, true, false⟩ ∧
      moduleImportGuard true true = ⟨none, false, false, true⟩ := by
  constructor
  · rcases hfail with h | h <;> subst h <;> simp [moduleImportGuard]
  · rfl

/-- Witness for C10: the sum module imports but the matmul module does
not — the script still exits with status 1 and runs nothing. -/
theorem C10_import_guard_witness :
    moduleImportGuard true false = ⟨some 1, true, true, false⟩ ∧
      moduleImportGuard true true = ⟨none, false, false, true⟩ :=
  C10_import_guard true false (Or.inr rfl)
